import Mathlib

/-!
Shallow embedding of the core of python-fmrest:

* `Foundset` together with its shared `cache_generator`
  (src/fmrest/foundset.py, src/fmrest/utils.py),
* `Record` (src/fmrest/record.py),
* `ServerABC._process_foundset_response` (src/fmrest/server_abc.py).

Python iterators are modelled by explicit state passing; raised exceptions
are modelled by `Option`/dedicated outcome types.
-/

namespace Fmrest

variable {α : Type}

/-! Record (src/fmrest/record.py). -/

/-! Response mapping: `ServerABC._process_foundset_response`
(src/fmrest/server_abc.py), with the `type_conversion=False` default. -/

/-- State of a `Foundset` (foundset.py) together with its shared
`cache_generator` (utils.py).  `cache` is `self._cache[0]`, `complete` is
`self._cache[1]`, `producer` is the not-yet-consumed tail of the wrapped
`self._records` generator, and `pulls` counts how many items have been
drawn from the producer so far (each successful `next` on the wrapped
generator). -/
structure Foundset (α : Type) where
  cache : List α
  complete : Bool
  producer : List α
  pulls : Nat
deriving DecidableEq

/-- Python `Foundset.__init__`: fresh state wrapping the producer, empty cache,
completion flag `False`. -/
def fsInit (l : List α) : Foundset α := ⟨[], false, l, 0⟩

/-- One `next()` on the shared `cache_generator` (`self._iter`): on success the
value is appended to the cache and yielded; on exhaustion the completion flag
is set (`cache[1] = True`) and `StopIteration` is raised (modelled as
`none`). -/
def genNext (s : Foundset α) : Option α × Foundset α :=
  match s.producer with
  | [] => (none, { s with complete := true })
  | x :: xs =>
    (some x, { s with cache := s.cache ++ [x], producer := xs, pulls := s.pulls + 1 })

/-- State of one iterator handed out by `Foundset.__iter__`.  When the cache is
complete, `__iter__` returns a plain list iterator over the cache
(`chained = false`); otherwise it returns
`itertools.chain(self._cache[0], self._iter)` (`chained = true`).  `idx` is the
position of the first leg's list iterator over the live cache list, and
`listDone` records that this list iterator has raised `StopIteration`
(a CPython list iterator is exhausted for good once it has raised, even if the
underlying list grows afterwards). -/
structure FsIter where
  chained : Bool
  listDone : Bool
  idx : Nat
deriving DecidableEq

/-- Python `Foundset.__iter__`. -/
def fsIterNew (s : Foundset α) : FsIter := ⟨!s.complete, false, 0⟩

/-- One `next()` on an iterator obtained from `__iter__`: serve from the live
cache list while possible; once the list leg is exhausted, `itertools.chain`
moves on (within the same `next` call) to the shared `cache_generator`. -/
def iterNext (it : FsIter) (s : Foundset α) : Option α × FsIter × Foundset α :=
  if it.listDone then
    if it.chained then
      let r := genNext s
      (r.1, it, r.2)
    else
      (none, it, s)
  else
    match s.cache.get? it.idx with
    | some x => (some x, { it with idx := it.idx + 1 }, s)
    | none =>
      if it.chained then
        let r := genNext s
        (r.1, { it with listDone := true }, r.2)
      else
        (none, { it with listDone := true }, s)

/-- Run an iterator for at most `fuel` steps, collecting the yielded items
(a Python `for` loop draining the iterator, with enough fuel). -/
def runIter : Nat → FsIter → Foundset α → List α × FsIter × Foundset α
  | 0, it, s => ([], it, s)
  | fuel + 1, it, s =>
    match iterNext it s with
    | (none, it', s') => ([], it', s')
    | (some x, it', s') =>
      let r := runIter fuel it' s'
      (x :: r.1, r.2.1, r.2.2)

/-- A full `for` loop over the foundset: obtain an iterator from `__iter__` and
drain it.  The fuel is sufficient for any state. -/
def fsIterate (s : Foundset α) : List α × Foundset α :=
  let r := runIter (s.cache.length + s.producer.length + 1) (fsIterNew s) s
  (r.1, r.2.2)

/-- Python `Foundset.__getitem__`'s while loop: pull the shared generator while
`index >= len(self._cache[0])`; a `StopIteration` breaks the loop (setting the
completion flag, since the generator's internal `for` loop has ended). -/
def fsDrain (s : Foundset α) (i : Int) : Foundset α :=
  if i < (s.cache.length : Int) then s
  else
    match h : s.producer with
    | [] => { s with complete := true }
    | x :: xs =>
      fsDrain { s with cache := s.cache ++ [x], producer := xs, pulls := s.pulls + 1 } i
termination_by s.producer.length
decreasing_by simp [h]

/-- Python list indexing `lst[i]`, including negative-index semantics; `none`
models `IndexError`. -/
def pyIndex (l : List α) (i : Int) : Option α :=
  if 0 ≤ i then l.get? i.toNat
  else if 0 ≤ i + l.length then l.get? (i + l.length).toNat
  else none

/-- Python `Foundset.__getitem__`: drain as needed, then index
`self._cache[0][index]`. -/
def fsGetitem (s : Foundset α) (i : Int) : Option α × Foundset α :=
  let s' := fsDrain s i
  (pyIndex s'.cache i, s')

/-- An interleaving event on a foundset: create a fresh iterator via
`__iter__` (`mkIter`), or advance the `k`-th created iterator by one `next()`
(`adv k`). -/
inductive FsOp where
  | mkIter : FsOp
  | adv : Nat → FsOp
deriving DecidableEq

/-- A foundset together with any number of live iterators over it; next to
each iterator state we record the list of items that iterator has yielded so
far. -/
structure FsMulti (α : Type) where
  fs : Foundset α
  iters : List (FsIter × List α)
deriving DecidableEq

def fsMultiInit (l : List α) : FsMulti α := ⟨fsInit l, []⟩

/-- Execute one interleaving event. -/
def fsMultiStep (m : FsMulti α) : FsOp → FsMulti α
  | .mkIter => ⟨m.fs, m.iters ++ [(fsIterNew m.fs, [])]⟩
  | .adv k =>
    match m.iters.get? k with
    | none => m
    | some q =>
      let r := iterNext q.1 m.fs
      match r.1 with
      | none => ⟨r.2.2, m.iters.set k (r.2.1, q.2)⟩
      | some x => ⟨r.2.2, m.iters.set k (r.2.1, q.2 ++ [x])⟩

/-- Execute a whole schedule of interleaving events over a fresh foundset. -/
def fsMultiRun (l : List α) (ops : List FsOp) : FsMulti α :=
  ops.foldl fsMultiStep (fsMultiInit l)

/-- Upper bound (in cache positions) of the region an iterator's yields were
taken from: its cache-leg index while the cache leg is live, the whole cache
once the iterator has moved on to the shared generator. -/
def itBound (it : FsIter) (n : Nat) : Nat := if it.listDone then n else it.idx

/-- The state change of a successful pull on the shared generator. -/
def fsPush (s : Foundset α) (x : α) (xs : List α) : Foundset α :=
  { s with cache := s.cache ++ [x], producer := xs, pulls := s.pulls + 1 }

/-- Invariant of a multi-iterator execution against the source list `l`. -/
def FsMultiInv (l : List α) (m : FsMulti α) : Prop :=
  m.fs.cache ++ m.fs.producer = l ∧
  m.fs.pulls = m.fs.cache.length ∧
  ∀ q ∈ m.iters, q.1.idx ≤ m.fs.cache.length ∧
    q.2.Sublist (m.fs.cache.take (itBound q.1 m.fs.cache.length))

/-- Python dict assignment `d[k] = v` on an insertion-ordered association
list: replace in place if the key is present, else append at the end. -/
def dictSet (d : List (String × α)) (k : String) (v : α) : List (String × α) :=
  match d with
  | [] => [(k, v)]
  | (k', v') :: t => if k' = k then (k, v) :: t else (k', v') :: dictSet t k v

/-- Python `d.get(k)` on an association list (`none` when the key is
absent). -/
def dictGet (d : List (String × α)) (k : String) : Option α :=
  match d with
  | [] => none
  | (k', v') :: t => if k' = k then some v' else dictGet t k

/-- Python `lst.index(x)`: index of the first occurrence, `ValueError`
(absent) modelled as `none`. -/
def pyListIndex [DecidableEq β] (l : List β) (x : β) : Option Nat :=
  match l with
  | [] => none
  | y :: t => if y = x then some 0 else (pyListIndex t x).map (· + 1)

/-- A `Record` instance: `keys`/`values`/`inPortal`/`mods` mirror the slots
`_keys`, `_values`, `_in_portal`, `_modifications` (the modifications dict as
an insertion-ordered association list).  The `type_conversion=False` default
is modelled (none of the claims exercises `convert_string_type`). -/
structure Record (α : Type) where
  keys : List String
  values : List α
  inPortal : Bool
  mods : List (String × α)
deriving DecidableEq

/-- `Record.__slots__`. -/
def recordSlots : List String := ["_keys", "_values", "_in_portal", "_modifications"]

/-- Python `Record.__getitem__` / attribute read: `keys().index(key)`, then
`values()[index]`.  `none` models the raised `KeyError` (and, on a record
whose values list is shorter than its keys list, the `IndexError`). -/
def Record.getItem (r : Record α) (key : String) : Option α :=
  (pyListIndex r.keys key).bind (fun i => r.values.get? i)

/-- Outcome of `Record.__setitem__`: a normal return (`ok`, either the
equal-value no-op or a field update), the `super().__setattr__` branch taken
for the four `__slots__` names (`slotAssigned`: a raw attribute write that
leaves the typed field model), the two `raise KeyError` sites, and the
`IndexError` that `self[key]` raises on a keys/values-length-mismatched
record. -/
inductive SetOutcome (α : Type) where
  | ok : Record α → SetOutcome α
  | slotAssigned : SetOutcome α
  | errFieldNotFound : SetOutcome α
  | errPortalWrite : SetOutcome α
  | pyIndexError : SetOutcome α
deriving DecidableEq

/-- Python `str.startswith(pre)`, evaluated on the character lists. -/
def pyStartsWith (s pre : String) : Bool := pre.data.isPrefixOf s.data

/-- Python `Record.__setitem__`. -/
def Record.setItem [DecidableEq α] (r : Record α) (key : String) (v : α) :
    SetOutcome α :=
  if key ∈ recordSlots then .slotAssigned
  else if key ∉ r.keys then .errFieldNotFound
  else if pyStartsWith key "portal_" then .errPortalWrite
  else
    match pyListIndex r.keys key with
    | none => .errFieldNotFound
    | some i =>
      match r.values.get? i with
      | none => .pyIndexError
      | some cur =>
        if v = cur then .ok r
        else .ok { r with mods := dictSet r.mods key v, values := r.values.set i v }

/-- Outcome of `Record.__setattr__`: the `KeyError`s of `__setitem__` are
re-raised as `AttributeError`s; everything else passes through. -/
inductive SetAttrOutcome (α : Type) where
  | ok : Record α → SetAttrOutcome α
  | slotAssigned : SetAttrOutcome α
  | attrErrFieldNotFound : SetAttrOutcome α
  | attrErrPortalWrite : SetAttrOutcome α
  | pyIndexError : SetAttrOutcome α
deriving DecidableEq

/-- Python `Record.__setattr__`. -/
def Record.setAttr [DecidableEq α] (r : Record α) (key : String) (v : α) :
    SetAttrOutcome α :=
  match r.setItem key v with
  | .ok r2 => .ok r2
  | .slotAssigned => .slotAssigned
  | .errFieldNotFound => .attrErrFieldNotFound
  | .errPortalWrite => .attrErrPortalWrite
  | .pyIndexError => .pyIndexError

/-- Python `Record.__init__` (with the default `type_conversion=False`): the
`ValueError` raised on a keys/values length mismatch is modelled as
`none`. -/
def Record.mk? (keys : List String) (values : List α) (inPortal : Bool) :
    Option (Record α) :=
  if keys.length = values.length then some ⟨keys, values, inPortal, []⟩ else none

/-- Python `Record.is_dirty`. -/
def Record.isDirty (r : Record α) : Bool := decide (0 < r.mods.length)

/-- Python `Record.pop` with the default `default=None` (`none`).  The
uncaught `IndexError` on a keys/values-length-mismatched record is conflated
with the default return; the claims only use length-matched records. -/
def Record.pop (r : Record α) [DecidableEq α] (key : String) : Option α × Record α :=
  match r.getItem key with
  | none => (none, r)
  | some v =>
    match pyListIndex r.keys key with
    | none => (none, r)
    | some i =>
      (some v, { r with keys := r.keys.eraseIdx i, values := r.values.eraseIdx i })

/-- Two `__setitem__` calls in sequence, returning the record after both when
both take the normal field-update path. -/
def setTwice [DecidableEq α] (r : Record α) (key : String) (v w : α) :
    Option (Record α) :=
  match r.setItem key v with
  | .ok r1 =>
    match r1.setItem key w with
    | .ok r2 => some r2
    | _ => none
  | _ => none

/-- `modifications()[key]` after `r[key] = v` (`none` when the set did not
take the normal field-update path, or the key is absent from the
modifications dict). -/
def modsAfterSet [DecidableEq α] (r : Record α) (key : String) (v : α) : Option α :=
  match r.setItem key v with
  | .ok r2 => dictGet r2.mods key
  | _ => none

/-- Python `len(record.keys())` after `record[key] = v`, over string field
values.  On the `slotAssigned` branch `super().__setattr__` stores `v` itself
in the named slot, so when the slot is `_keys`, `keys()` afterwards returns
the string `v` and `len()` is its character length. -/
def keysLenAfterSet (r : Record String) (key v : String) : Option Nat :=
  match r.setItem key v with
  | .ok r2 => some r2.keys.length
  | .slotAssigned => some (if key = "_keys" then v.length else r.keys.length)
  | _ => none

/-- Python `len(record.values())` after `record[key] = v`, over string field
values; on the `slotAssigned` branch for `_values`, `values()` afterwards
returns the string `v` itself. -/
def valuesLenAfterSet (r : Record String) (key v : String) : Option Nat :=
  match r.setItem key v with
  | .ok r2 => some r2.values.length
  | .slotAssigned => some (if key = "_values" then v.length else r.values.length)
  | _ => none

/-- JSON-ish field values as they appear inside mapped `Record`s.  A `fset`
value is a portal `Foundset`: it carries the constructor arguments
(`list(row)`, `list(row.values())`, `in_portal=True`) of the related
`Record`s the wrapped generator will lazily build, and the portal's `info`
dict. -/
inductive FMVal : Type where
  | str : String → FMVal
  | int : Int → FMVal
  | null : FMVal
  | fset : List (List String × List FMVal × Bool) → List (String × FMVal) → FMVal

/-- One row of `response['data']`: the `fieldData` dict, the row's sibling
`recordId` and `modId` keys (`none` when absent, as `record.get` is used),
the optional `portalDataInfo` list of dicts, and the `portalData` dict
mapping portal names to their lists of rows. -/
structure FMRow where
  fieldData : List (String × FMVal)
  recordId : Option FMVal
  modId : Option FMVal
  portalDataInfo : List (List (String × FMVal))
  portalData : List (String × List (List (String × FMVal)))

/-- `entry.get('portalObjectName', entry['table'])`; `none` models the
`KeyError` when both keys are missing. -/
def portalIdentifier (entry : List (String × FMVal)) : Option FMVal :=
  match dictGet entry "portalObjectName" with
  | some v => some v
  | none => dictGet entry "table"

/-- Python `==` between two portal-identifier values (JSON scalars; a portal
identifier is an object name or table-occurrence name string in practice). -/
def pyScalarEq : FMVal → FMVal → Bool
  | .str a, .str b => a = b
  | .int a, .int b => a = b
  | .null, .null => true
  | _, _ => false

/-- Dict assignment `portal_info[identifier] = entry` keyed by identifier
values. -/
def infoDictSet (d : List (FMVal × List (String × FMVal))) (k : FMVal)
    (v : List (String × FMVal)) : List (FMVal × List (String × FMVal)) :=
  match d with
  | [] => [(k, v)]
  | (k', v') :: t =>
    if pyScalarEq k' k then (k, v) :: t else (k', v') :: infoDictSet t k v

/-- `portal_info.get(portal_name, {})`. -/
def portalInfoLookup (d : List (FMVal × List (String × FMVal)))
    (name : String) : List (String × FMVal) :=
  match d with
  | [] => []
  | (k, e) :: t => if pyScalarEq k (.str name) then e else portalInfoLookup t name

/-- One iteration of `_process_foundset_response`'s `for record in data` loop
(`type_conversion=False`): inject the row's sibling `recordId`/`modId` keys
into the field dict, build the `portal_info` index (identifier is
`portalObjectName`, falling back to `table`; `none` models the `KeyError`
when an entry has neither), then append one `portal_`-prefixed key per portal
whose value is the portal `Foundset` over lazily-built `in_portal` records.
The final `Record(keys, values)` length check passes by construction, so the
record is built directly. -/
def processRow (row : FMRow) : Option (Record FMVal) :=
  let fd1 := dictSet row.fieldData "recordId" (row.recordId.getD .null)
  let fd2 := dictSet fd1 "modId" (row.modId.getD .null)
  let keys0 := fd2.map Prod.fst
  let vals0 := fd2.map Prod.snd
  match row.portalDataInfo.foldlM
      (fun acc entry => (portalIdentifier entry).map
        (fun pid => infoDictSet acc pid entry))
      ([] : List (FMVal × List (String × FMVal))) with
  | none => none
  | some pinfo =>
    some ⟨keys0 ++ row.portalData.map (fun p => "portal_" ++ p.1),
          vals0 ++ row.portalData.map (fun p =>
            .fset (p.2.map (fun prow => (prow.map Prod.fst, prow.map Prod.snd, true)))
                  (portalInfoLookup pinfo p.1)),
          false, []⟩

/-- `ServerABC._process_foundset_response` over the rows of
`response['data']`, fully drained. -/
def processFoundsetResponse (data : List FMRow) : Option (List (Record FMVal)) :=
  data.mapM processRow

/-- The deferred construction of a related record from a portal row, as the
generator inside `_process_foundset_response` performs it:
`Record(list(row), list(row.values()), in_portal=True)`. -/
def recOfPortalRow (t : List String × List FMVal × Bool) : Option (Record FMVal) :=
  Record.mk? t.1 t.2.1 t.2.2

/-- Python `int(x)` on an API field value (`none` models
`TypeError`/`ValueError`). -/
def pyInt : FMVal → Option Int
  | .int n => some n
  | .str s => s.toInt?
  | _ => none

/-- Python `Record.record_id` (`int(self.recordId)`); `none` models the
attribute/conversion error on records without a usable `recordId` field. -/
def Record.record_id (r : Record FMVal) : Option Int :=
  (r.getItem "recordId").bind pyInt

/-- Python `Record.modification_id`: `None` (inner `none`) for in-portal
records, otherwise `int(self.modId)`; the outer `none` models the
attribute/conversion error. -/
def Record.modification_id (r : Record FMVal) : Option (Option Int) :=
  if r.inPortal then some none
  else ((r.getItem "modId").bind pyInt).map some

theorem runIter_gen (it : FsIter) (hc : it.chained = true) (hd : it.listDone = true)
    (p : List α) : ∀ (fuel : Nat) (c : List α) (b : Bool) (pl : Nat), p.length < fuel →
    runIter fuel it ⟨c, b, p, pl⟩ = (p, it, ⟨c ++ p, true, [], pl + p.length⟩) := by
  induction p with
  | nil =>
    intro fuel c b pl h
    cases fuel with
    | zero => omega
    | succ fuel => simp [runIter, iterNext, genNext, hc, hd]
  | cons x xs ih =>
    intro fuel c b pl h
    cases fuel with
    | zero => omega
    | succ fuel =>
      have hx : xs.length < fuel := by
        simp only [List.length_cons] at h; omega
      have hrec := ih fuel (c ++ [x]) b (pl + 1) hx
      simp only [runIter, iterNext, genNext, hc, hd, if_true, hrec]
      simp [List.append_assoc]
      omega

theorem runIter_fresh (l : List α) : ∀ (fuel : Nat), l.length < fuel →
    runIter fuel ⟨true, false, 0⟩ (fsInit l) =
      (l, ⟨true, true, 0⟩, ⟨l, true, [], l.length⟩) := by
  intro fuel h
  cases fuel with
  | zero => omega
  | succ fuel =>
    cases l with
    | nil => simp [runIter, iterNext, genNext, fsInit]
    | cons x xs =>
      have hx : xs.length < fuel := by
        have hh : xs.length + 1 < fuel + 1 := by simpa using h
        omega
      have hrec := runIter_gen (⟨true, true, 0⟩ : FsIter) rfl rfl xs fuel [x] false 1 hx
      simp only [runIter, iterNext, genNext, fsInit, List.get?_nil, if_true, hrec]
      simp [List.length_cons, hrec]
      omega

theorem runIter_listOnly (c : List α) (b : Bool) (p : List α) (pl : Nat) :
    ∀ (fuel i : Nat), c.length - i < fuel →
    (runIter fuel ⟨false, false, i⟩ ⟨c, b, p, pl⟩).1 = c.drop i ∧
    (runIter fuel ⟨false, false, i⟩ ⟨c, b, p, pl⟩).2.2 = ⟨c, b, p, pl⟩ := by
  intro fuel
  induction fuel with
  | zero => intro i h; omega
  | succ fuel ih =>
    intro i h
    cases hget : c.get? i with
    | some x =>
      have hi : i < c.length := (List.get?_eq_some.mp hget).1
      have hx : c.length - (i + 1) < fuel := by omega
      have hrec := ih (i + 1) hx
      have hdrop : c.drop i = x :: c.drop (i + 1) := by
        obtain ⟨hlt, hv⟩ := List.get?_eq_some.mp hget
        rw [List.drop_eq_getElem_cons hlt]
        simp only [List.get_eq_getElem] at hv
        rw [hv]
      constructor
      · simp only [runIter, iterNext, hget]
        simp [hrec.1, hdrop]
      · simp only [runIter, iterNext, hget]
        simp [hrec.2]
    | none =>
      have hi : c.length ≤ i := List.get?_eq_none.mp hget
      constructor
      · simp only [runIter, iterNext, hget]
        simp [List.drop_eq_nil_of_le hi]
      · simp only [runIter, iterNext, hget]
        simp

theorem fsIterate_init (l : List α) :
    fsIterate (fsInit l) = (l, ⟨l, true, [], l.length⟩) := by
  have := runIter_fresh l (l.length + 1) (by omega)
  simp only [fsIterate, fsInit, fsIterNew]
  simp only [fsInit] at this
  simp [this]

theorem fsIterate_done (c : List α) (p : List α) (pl : Nat) :
    fsIterate (⟨c, true, p, pl⟩ : Foundset α) = (c, ⟨c, true, p, pl⟩) := by
  have := runIter_listOnly c true p pl (c.length + p.length + 1) 0 (by omega)
  simp only [fsIterate, fsIterNew]
  refine Prod.ext ?_ ?_
  · simpa using this.1
  · simpa using this.2

/-- C1: for every Foundset built from a finite producer of `N` records,
iterating it twice yields the same `N` items in the same order both times, and
the underlying producer is advanced exactly `N` times total across both
iterations combined (the second iteration is served entirely from the
cache). -/
theorem foundset_iterate_twice (l : List α) :
    (fsIterate (fsInit l)).1 = l ∧
    (fsIterate ((fsIterate (fsInit l)).2)).1 = l ∧
    ((fsIterate ((fsIterate (fsInit l)).2)).2).pulls = l.length := by
  rw [fsIterate_init]
  simp [fsIterate_done]

theorem Foundset.ext4 {s t : Foundset α} (h1 : s.cache = t.cache)
    (h2 : s.complete = t.complete) (h3 : s.producer = t.producer)
    (h4 : s.pulls = t.pulls) : s = t := by
  cases s
  cases t
  simp_all

theorem fsDrain_spec (p : List α) : ∀ (c : List α) (b : Bool) (pl : Nat) (i : Int),
    fsDrain ⟨c, b, p, pl⟩ i =
      if i < (c.length : Int) then ⟨c, b, p, pl⟩
      else if i < ((c.length + p.length : Nat) : Int) then
        ⟨c ++ p.take (i.toNat + 1 - c.length), b, p.drop (i.toNat + 1 - c.length),
          pl + (i.toNat + 1 - c.length)⟩
      else ⟨c ++ p, true, [], pl + p.length⟩ := by
  induction p with
  | nil =>
    intro c b pl i
    rw [fsDrain]
    show (if i < (c.length : Int) then (⟨c, b, [], pl⟩ : Foundset α)
      else ⟨c, true, [], pl⟩) = _
    simp only [List.length_nil, Nat.add_zero, List.take_nil, List.drop_nil,
      List.append_nil]
    split_ifs with h1
    · rfl
    · rfl
  | cons x xs ih =>
    intro c b pl i
    rw [fsDrain]
    by_cases h1 : i < (c.length : Int)
    · simp [h1]
    · have h1' : (c.length : Int) ≤ i := not_lt.mp h1
      have hi0 : 0 ≤ i := by omega
      simp only [if_neg h1]
      show fsDrain ⟨c ++ [x], b, xs, pl + 1⟩ i = _
      rw [ih (c ++ [x]) b (pl + 1) i]
      simp only [List.length_append, List.length_cons, List.length_nil, Nat.zero_add]
      by_cases h2 : i < ((c.length + 1 : Nat) : Int)
      · rw [if_pos h2]
        have hc2 : i < ((c.length + (xs.length + 1) : Nat) : Int) := by
          push_cast at h2 ⊢
          omega
        rw [if_pos hc2]
        have hk : i.toNat + 1 - c.length = 1 := by
          push_cast at h2
          omega
        rw [hk]
        apply Foundset.ext4 <;> simp
      · rw [if_neg h2]
        by_cases h3 : i < ((c.length + (xs.length + 1) : Nat) : Int)
        · have hc3 : i < ((c.length + 1 + xs.length : Nat) : Int) := by
            push_cast at h3 ⊢
            omega
          rw [if_pos hc3, if_pos h3]
          have hk2 : i.toNat + 1 - c.length = (i.toNat + 1 - (c.length + 1)) + 1 := by
            push_cast at h2
            omega
          rw [hk2, List.take_succ_cons, List.drop_succ_cons]
          have e1 : c ++ [x] ++ List.take (i.toNat + 1 - (c.length + 1)) xs
              = c ++ x :: List.take (i.toNat + 1 - (c.length + 1)) xs := by simp
          have e2 : pl + 1 + (i.toNat + 1 - (c.length + 1))
              = pl + (i.toNat + 1 - (c.length + 1) + 1) := by omega
          rw [e1, e2]
        · have hc3 : ¬ i < ((c.length + 1 + xs.length : Nat) : Int) := by
            push_cast at h3 ⊢
            omega
          rw [if_neg hc3, if_neg h3]
          have e1 : c ++ [x] ++ xs = c ++ x :: xs := by simp
          have e2 : pl + 1 + xs.length = pl + (xs.length + 1) := by omega
          rw [e1, e2]

/-- C3: `Foundset.__getitem__` at `0 <= i < N` returns the `i`-th record (the
same item full iteration yields at position `i`), forcing production only up
through index `i` (cache becomes the first `i + 1` records, `i + 1` pulls);
at `i >= N` it drains everything and raises `IndexError` (modelled `none`);
and repeating the same access is idempotent: the state is unchanged and the
same value is served again from the cache. -/
theorem foundset_at (l : List α) (i : Nat) :
    (i < l.length →
      fsGetitem (fsInit l) (i : Int) =
        (l.get? i, ⟨l.take (i + 1), false, l.drop (i + 1), i + 1⟩) ∧
      (fsIterate (fsInit l)).1.get? i = l.get? i ∧
      fsGetitem (⟨l.take (i + 1), false, l.drop (i + 1), i + 1⟩ : Foundset α) (i : Int) =
        (l.get? i, ⟨l.take (i + 1), false, l.drop (i + 1), i + 1⟩)) ∧
    (l.length ≤ i →
      fsGetitem (fsInit l) (i : Int) = (none, ⟨l, true, [], l.length⟩)) := by
  have hval : pyIndex (l.take (i + 1)) (i : Int) = l.get? i := by
    rw [pyIndex, if_pos (Int.natCast_nonneg i)]
    rw [Int.toNat_natCast]
    exact List.get?_take (Nat.lt_succ_self i)
  have hc1 : ¬ ((i : Int) < (([] : List α).length : Int)) := by simp
  constructor
  · intro h
    have hc2 : (i : Int) < ((([] : List α).length + l.length : Nat) : Int) := by
      simp only [List.length_nil, Nat.zero_add]
      exact_mod_cast h
    have hd := fsDrain_spec l [] false 0 (i : Int)
    rw [if_neg hc1, if_pos hc2] at hd
    simp only [List.length_nil, List.nil_append, Nat.sub_zero, Nat.zero_add,
      Int.toNat_natCast] at hd
    refine ⟨?_, ?_, ?_⟩
    · simp only [fsGetitem, fsInit, hd, hval]
    · rw [fsIterate_init]
    · have hone : fsDrain (⟨l.take (i + 1), false, l.drop (i + 1), i + 1⟩ : Foundset α)
          (i : Int) = ⟨l.take (i + 1), false, l.drop (i + 1), i + 1⟩ := by
        rw [fsDrain_spec, if_pos]
        rw [List.length_take]
        push_cast
        omega
      simp only [fsGetitem, hone, hval]
  · intro h
    have hc2 : ¬ ((i : Int) < ((([] : List α).length + l.length : Nat) : Int)) := by
      simp only [List.length_nil, Nat.zero_add]
      push_cast
      omega
    have hd := fsDrain_spec l [] false 0 (i : Int)
    rw [if_neg hc1, if_neg hc2] at hd
    simp only [List.nil_append, Nat.zero_add] at hd
    have hnone : pyIndex l (i : Int) = none := by
      rw [pyIndex, if_pos (Int.natCast_nonneg i), Int.toNat_natCast]
      exact List.get?_eq_none.mpr h
    simp only [fsGetitem, fsInit, hd, hnone]

/-- C10: indexing a `Foundset` at a negative index never advances the producer
(the `while index >= len(cache)` loop is skipped): the state is unchanged, and
the cached prefix alone is indexed with Python negative-index semantics; in
particular index `-1` returns the last cached item, or raises when nothing is
cached yet. -/
theorem foundset_neg_index (s : Foundset α) (i : Int) (h : i < 0) :
    (fsGetitem s i).2 = s ∧
    (fsGetitem s i).1 =
      (if 0 ≤ i + s.cache.length then s.cache.get? (i + s.cache.length).toNat else none) ∧
    (fsGetitem s (-1)).1 = s.cache.getLast? := by
  obtain ⟨c, b, p, pl⟩ := s
  have hd : fsDrain (⟨c, b, p, pl⟩ : Foundset α) i = ⟨c, b, p, pl⟩ := by
    rw [fsDrain_spec, if_pos (by push_cast; omega)]
  have hd1 : fsDrain (⟨c, b, p, pl⟩ : Foundset α) (-1) = ⟨c, b, p, pl⟩ := by
    rw [fsDrain_spec, if_pos (by push_cast; omega)]
  refine ⟨?_, ?_, ?_⟩
  · simp only [fsGetitem, hd]
  · simp only [fsGetitem, hd, pyIndex, if_neg (not_le.mpr h)]
  · simp only [fsGetitem, hd1, pyIndex]
    by_cases hc : c = []
    · subst hc
      simp
    · have hlen : 1 ≤ c.length := by
        cases c with
        | nil => exact absurd rfl hc
        | cons y ys => simp
      rw [List.getLast?_eq_get?]
      have h0 : (0 : Int) ≤ -1 + c.length := by push_cast; omega
      rw [if_neg (by norm_num), if_pos h0]
      congr 1
      omega

theorem entry_grow {c : List α} {x : α} {q : FsIter × List α}
    (h : q.1.idx ≤ c.length ∧ q.2.Sublist (c.take (itBound q.1 c.length))) :
    q.1.idx ≤ (c ++ [x]).length ∧
    q.2.Sublist ((c ++ [x]).take (itBound q.1 (c ++ [x]).length)) := by
  obtain ⟨h1, h2⟩ := h
  constructor
  · simp only [List.length_append, List.length_cons, List.length_nil]
    omega
  · cases hld : q.1.listDone with
    | false =>
      simp only [itBound, hld, if_neg Bool.false_ne_true] at h2 ⊢
      rwa [List.take_append_of_le_length h1]
    | true =>
      have hb : itBound q.1 (c ++ [x]).length = (c ++ [x]).length := by
        simp [itBound, hld]
      have hb2 : itBound q.1 c.length = c.length := by
        simp [itBound, hld]
      rw [hb, List.take_length]
      rw [hb2, List.take_length] at h2
      exact h2.trans (List.sublist_append_left c [x])

theorem fsMultiStep_inv {l : List α} {m : FsMulti α} (hinv : FsMultiInv l m)
    (op : FsOp) : FsMultiInv l (fsMultiStep m op) := by
  obtain ⟨hcp, hpl, hq⟩ := hinv
  cases op with
  | mkIter =>
    refine ⟨hcp, hpl, ?_⟩
    intro q hmem
    simp only [fsMultiStep] at hmem
    rcases List.mem_append.mp hmem with hmem | hmem
    · exact hq q hmem
    · have hq' : q = (fsIterNew m.fs, ([] : List α)) := by simpa using hmem
      subst hq'
      exact ⟨by simp [fsIterNew], by simp⟩
  | adv k =>
    cases hk : m.iters.get? k with
    | none =>
      simp only [fsMultiStep, hk]
      exact ⟨hcp, hpl, hq⟩
    | some q0 =>
      obtain ⟨hidx0, hsub0⟩ := hq q0 (List.get?_mem hk)
      by_cases hld : q0.1.listDone = true
      · have hsub0' : q0.2.Sublist m.fs.cache := by
          simpa [itBound, hld, List.take_length] using hsub0
        by_cases hch : q0.1.chained = true
        · cases hp : m.fs.producer with
          | nil =>
            have hstep : iterNext q0.1 m.fs =
                (none, q0.1, { m.fs with complete := true }) := by
              simp [iterNext, hld, hch, genNext, hp]
            simp only [fsMultiStep, hk, hstep]
            refine ⟨by simpa [hp] using hcp, hpl, ?_⟩
            intro q hmem
            rcases List.mem_or_eq_of_mem_set hmem with hmem | hmem
            · exact hq q hmem
            · subst hmem
              exact ⟨hidx0, hsub0⟩
          | cons x xs =>
            have hstep : iterNext q0.1 m.fs = (some x, q0.1, fsPush m.fs x xs) := by
              simp [iterNext, hld, hch, genNext, hp, fsPush]
            simp only [fsMultiStep, hk, hstep, fsPush]
            refine ⟨?_, ?_, ?_⟩
            · simpa using (by rw [← hcp, hp] : m.fs.cache ++ x :: xs = l)
            · simp [hpl]
            · intro q hmem
              rcases List.mem_or_eq_of_mem_set hmem with hmem | hmem
              · exact entry_grow (hq q hmem)
              · subst hmem
                refine ⟨by simp; omega, ?_⟩
                have hb : itBound q0.1 (m.fs.cache ++ [x]).length
                    = (m.fs.cache ++ [x]).length := by
                  simp [itBound, hld]
                rw [hb, List.take_length]
                exact hsub0'.append (List.Sublist.refl [x])
        · have hstep : iterNext q0.1 m.fs = (none, q0.1, m.fs) := by
            simp [iterNext, hld, hch]
          simp only [fsMultiStep, hk, hstep]
          refine ⟨hcp, hpl, ?_⟩
          intro q hmem
          rcases List.mem_or_eq_of_mem_set hmem with hmem | hmem
          · exact hq q hmem
          · subst hmem
            exact ⟨hidx0, hsub0⟩
      · have hld' : q0.1.listDone = false := by
          cases hb : q0.1.listDone
          · rfl
          · exact absurd hb hld
        have hsub0' : q0.2.Sublist (m.fs.cache.take q0.1.idx) := by
          simpa [itBound, hld'] using hsub0
        cases hg : m.fs.cache.get? q0.1.idx with
        | some x =>
          have hstep : iterNext q0.1 m.fs =
              (some x, { q0.1 with idx := q0.1.idx + 1 }, m.fs) := by
            simp [iterNext, hld', ← List.get?_eq_getElem?, hg]
          have hix : q0.1.idx < m.fs.cache.length := (List.get?_eq_some.mp hg).1
          simp only [fsMultiStep, hk, hstep]
          refine ⟨hcp, hpl, ?_⟩
          intro q hmem
          rcases List.mem_or_eq_of_mem_set hmem with hmem | hmem
          · exact hq q hmem
          · subst hmem
            refine ⟨by simpa using hix, ?_⟩
            simp only [itBound, hld', if_neg Bool.false_ne_true]
            rw [List.take_succ, ← List.get?_eq_getElem?, hg, Option.toList_some]
            exact hsub0'.append (List.Sublist.refl [x])
        | none =>
          have hyc : q0.2.Sublist m.fs.cache :=
            hsub0'.trans (List.take_sublist _ _)
          by_cases hch : q0.1.chained = true
          · cases hp : m.fs.producer with
            | nil =>
              have hstep : iterNext q0.1 m.fs =
                  (none, { q0.1 with listDone := true },
                    { m.fs with complete := true }) := by
                simp [iterNext, hld', hch, genNext, hp, ← List.get?_eq_getElem?, hg]
              simp only [fsMultiStep, hk, hstep]
              refine ⟨by simpa [hp] using hcp, hpl, ?_⟩
              intro q hmem
              rcases List.mem_or_eq_of_mem_set hmem with hmem | hmem
              · exact hq q hmem
              · subst hmem
                refine ⟨by simpa using hidx0, ?_⟩
                simpa [itBound, List.take_length] using hyc
            | cons x xs =>
              have hstep : iterNext q0.1 m.fs =
                  (some x, { q0.1 with listDone := true }, fsPush m.fs x xs) := by
                simp [iterNext, hld', hch, genNext, hp, fsPush, ← List.get?_eq_getElem?, hg]
              simp only [fsMultiStep, hk, hstep, fsPush]
              refine ⟨?_, ?_, ?_⟩
              · simpa using (by rw [← hcp, hp] : m.fs.cache ++ x :: xs = l)
              · simp [hpl]
              · intro q hmem
                rcases List.mem_or_eq_of_mem_set hmem with hmem | hmem
                · exact entry_grow (hq q hmem)
                · subst hmem
                  refine ⟨by simp; omega, ?_⟩
                  have hb : itBound (⟨q0.1.chained, true, q0.1.idx⟩ : FsIter)
                      (m.fs.cache ++ [x]).length = (m.fs.cache ++ [x]).length := by
                    simp [itBound]
                  rw [show ({ q0.1 with listDone := true } : FsIter)
                      = ⟨q0.1.chained, true, q0.1.idx⟩ from rfl] at *
                  rw [hb, List.take_length]
                  exact hyc.append (List.Sublist.refl [x])
          · have hstep : iterNext q0.1 m.fs =
                (none, { q0.1 with listDone := true }, m.fs) := by
              simp [iterNext, hld', hch, ← List.get?_eq_getElem?, hg]
            simp only [fsMultiStep, hk, hstep]
            refine ⟨hcp, hpl, ?_⟩
            intro q hmem
            rcases List.mem_or_eq_of_mem_set hmem with hmem | hmem
            · exact hq q hmem
            · subst hmem
              refine ⟨by simpa using hidx0, ?_⟩
              simpa [itBound, List.take_length] using hyc

theorem fsMultiRun_inv (l : List α) (ops : List FsOp) :
    FsMultiInv l (fsMultiRun l ops) := by
  suffices h : ∀ (m : FsMulti α), FsMultiInv l m →
      FsMultiInv l (ops.foldl fsMultiStep m) by
    refine h (fsMultiInit l) ?_
    refine ⟨by simp [fsMultiInit, fsInit], by simp [fsMultiInit, fsInit], ?_⟩
    intro q hmem
    simp [fsMultiInit] at hmem
  induction ops with
  | nil =>
    intro m hm
    simpa using hm
  | cons op rest ih =>
    intro m hm
    rw [List.foldl_cons]
    exact ih _ (fsMultiStep_inv hm op)

/-- C2 counterexample: over the producer `[0, 1, 2]`, iterator `0` is created
and advanced once (yielding record 0), then iterator `1` is created and
advanced twice (yielding records 0 and 1); advancing iterator `0` to
exhaustion afterwards yields record 2 but never record 1, so its complete
yield sequence is `[0, 2]`, not `[0, 1, 2]`: an iterator over a partially
consumed collection can skip items that another iterator pulled from the
shared generator after this iterator's cache leg had already ended. -/
theorem foundset_two_iterators_cex :
    ((fsMultiRun [0, 1, 2]
        [.mkIter, .adv 0, .mkIter, .adv 1, .adv 1, .adv 0, .adv 0]).iters.map Prod.snd
      = [[0, 2], [0, 1]]) ∧
    ((fsMultiRun [0, 1, 2]
        [.mkIter, .adv 0, .mkIter, .adv 1, .adv 1, .adv 0, .adv 0,
          .adv 0]).iters.map Prod.snd
      = [[0, 2], [0, 1]]) ∧
    ([0, 2] : List Nat) ≠ [0, 1, 2] := by
  refine ⟨by decide, by decide, by decide⟩

/-- C2 (amended): in every interleaved execution of any number of iterators
over one Foundset, production stays a single shared stream: no record is ever
produced twice (the cache together with the remaining producer is exactly the
source list, and the pull count equals the cache length, hence never exceeds
`N`), and every iterator's yield sequence is a subsequence of the source
records in source order (no duplicate and no reordering).  An iterator may
however skip records that other iterators pulled from the shared generator
after its own cache leg ended, as the counterexample shows. -/
theorem foundset_iterators_shared_stream (l : List α) (ops : List FsOp) :
    (fsMultiRun l ops).fs.cache ++ (fsMultiRun l ops).fs.producer = l ∧
    (fsMultiRun l ops).fs.pulls = (fsMultiRun l ops).fs.cache.length ∧
    (fsMultiRun l ops).fs.pulls ≤ l.length ∧
    ∀ q ∈ (fsMultiRun l ops).iters, q.2.Sublist l := by
  obtain ⟨hcp, hpl, hq⟩ := fsMultiRun_inv l ops
  have hclen : (fsMultiRun l ops).fs.cache.length ≤ l.length := by
    have hlen := congrArg List.length hcp
    simp only [List.length_append] at hlen
    omega
  refine ⟨hcp, hpl, by omega, ?_⟩
  intro q hmem
  have h1 := (hq q hmem).2
  have h2 := List.sublist_append_left (fsMultiRun l ops).fs.cache
    (fsMultiRun l ops).fs.producer
  rw [hcp] at h2
  exact h1.trans ((List.take_sublist _ _).trans h2)

theorem foundset_iterators_shared_stream_wit :
    ([0, 1] : List Nat).Sublist [0, 1] ∧
    (fsMultiRun [0, 1] [.mkIter, .adv 0, .adv 0, .adv 0]).fs.pulls ≤ 2 := by
  have h := foundset_iterators_shared_stream ([0, 1] : List Nat)
    [.mkIter, .adv 0, .adv 0, .adv 0]
  refine ⟨?_, ?_⟩
  · exact h.2.2.2 (⟨true, true, 0⟩, [0, 1]) (by decide)
  · have := h.2.2.1
    simpa using this

theorem foundset_at_wit :
    (fsGetitem (fsInit ([10, 20, 30] : List Nat)) ((1 : Nat) : Int)).1 = some 20 ∧
    (fsGetitem (fsInit ([10, 20, 30] : List Nat)) ((1 : Nat) : Int)).2.pulls = 2 ∧
    (fsGetitem (fsInit ([10, 20, 30] : List Nat)) ((3 : Nat) : Int)).1 = none := by
  have h1 := ((foundset_at ([10, 20, 30] : List Nat) 1).1 (by decide)).1
  have h3 := (foundset_at ([10, 20, 30] : List Nat) 3).2 (by decide)
  refine ⟨?_, ?_, ?_⟩
  · rw [h1]
    rfl
  · rw [h1]
  · rw [h3]

theorem foundset_neg_index_wit :
    (fsGetitem (⟨[5, 6], false, [7], 2⟩ : Foundset Nat) (-1)).2
      = ⟨[5, 6], false, [7], 2⟩ ∧
    (fsGetitem (⟨[5, 6], false, [7], 2⟩ : Foundset Nat) (-1)).1 = some 6 := by
  have h := foundset_neg_index (⟨[5, 6], false, [7], 2⟩ : Foundset Nat) (-1)
    (by norm_num)
  refine ⟨h.1, ?_⟩
  rw [h.2.2]
  rfl

theorem pyListIndex_some_get {β : Type} [DecidableEq β] {l : List β} {x : β} :
    ∀ {i : Nat}, pyListIndex l x = some i → l.get? i = some x := by
  induction l with
  | nil => intro i h; simp [pyListIndex] at h
  | cons y t ih =>
    intro i h
    by_cases hy : y = x
    · simp [pyListIndex, hy] at h
      subst h
      simp [hy]
    · simp only [pyListIndex, if_neg hy, Option.map_eq_some'] at h
      obtain ⟨j, hj, hij⟩ := h
      subst hij
      simpa using ih hj

theorem pyListIndex_some_mem {β : Type} [DecidableEq β] {l : List β} {x : β} {i : Nat}
    (h : pyListIndex l x = some i) : x ∈ l := by
  have := pyListIndex_some_get h
  exact List.get?_mem this

theorem dictGet_dictSet (d : List (String × α)) (k : String) (v : α) :
    dictGet (dictSet d k v) k = some v := by
  induction d with
  | nil => simp [dictSet, dictGet]
  | cons p t ih =>
    by_cases hk : p.1 = k
    · simp [dictSet, dictGet, hk]
    · simp [dictSet, dictGet, hk, ih]

theorem dictGet_some_ne_nil {d : List (String × α)} {k : String} {v : α}
    (h : dictGet d k = some v) : d ≠ [] := by
  intro hd
  subst hd
  simp [dictGet] at h

theorem get?_set_self {β : Type} {l : List β} {v : β} :
    ∀ {i : Nat}, i < l.length → (l.set i v).get? i = some v := by
  induction l with
  | nil => intro i h; simp at h
  | cons y t ih =>
    intro i h
    cases i with
    | zero => simp
    | succ j =>
      simp only [List.set_cons_succ, List.get?_cons_succ]
      exact ih (by simpa using h)

theorem setItem_spec {α : Type} [DecidableEq α] {r : Record α} {key : String} {cur : α}
    (hs : key ∉ recordSlots) (hp : pyStartsWith key "portal_" = false)
    (hget : r.getItem key = some cur) :
    r.setItem key cur = .ok r ∧
    ∀ v, v ≠ cur → ∃ r2, r.setItem key v = .ok r2 ∧
      r2.keys = r.keys ∧ r2.inPortal = r.inPortal ∧
      r2.mods = dictSet r.mods key v ∧ r2.getItem key = some v := by
  simp only [Record.getItem] at hget
  obtain ⟨i, hi, hv⟩ := Option.bind_eq_some.mp hget
  have hmem := pyListIndex_some_mem hi
  have hilen : i < r.values.length := (List.get?_eq_some.mp hv).1
  constructor
  · simp [Record.setItem, hs, hmem, hp, hi, ← List.get?_eq_getElem?, hv]
  · intro v hv2
    refine ⟨{ r with mods := dictSet r.mods key v, values := r.values.set i v },
      ?_, rfl, rfl, rfl, ?_⟩
    · simp [Record.setItem, hs, hmem, hp, hi, ← List.get?_eq_getElem?, hv, hv2]
    · simp [Record.getItem, hi, ← List.get?_eq_getElem?, get?_set_self hilen]

/-- C6 counterexample: on the record `Record(['id'], [0])`, setting the
portal-prefixed name `portal_X` (not a layout field) raises the
field-not-found `KeyError`, not the portal-write one (the key-membership
check runs first); and setting `_keys` (also not a field) raises nothing at
all, it assigns the internal slot. -/
theorem record_set_portal_cex :
    Record.setItem (⟨["id"], [0], false, []⟩ : Record Nat) "portal_X" 1
      = .errFieldNotFound ∧
    SetOutcome.errFieldNotFound ≠ (SetOutcome.errPortalWrite : SetOutcome Nat) ∧
    Record.setItem (⟨["id"], [0], false, []⟩ : Record Nat) "_keys" 1
      = .slotAssigned ∧
    SetOutcome.slotAssigned ≠ (SetOutcome.errFieldNotFound : SetOutcome Nat) := by
  refine ⟨by decide, by decide, by decide, by decide⟩

/-- C6 (amended): for a key that is none of the four internal slot names,
setting an unknown field raises `FieldNotFound` (`KeyError`; attribute-style
assignment re-raises it as `AttributeError`), and setting a known
portal-prefixed field raises `PortalWriteNotSupported`; setting one of the
slot names instead performs a raw internal attribute assignment. -/
theorem record_set_errors {α : Type} [DecidableEq α] (r : Record α) (key : String)
    (v : α) :
    (key ∈ recordSlots →
      r.setItem key v = .slotAssigned ∧ r.setAttr key v = .slotAssigned) ∧
    (key ∉ recordSlots → key ∉ r.keys →
      r.setItem key v = .errFieldNotFound ∧
      r.setAttr key v = .attrErrFieldNotFound) ∧
    (key ∉ recordSlots → key ∈ r.keys → pyStartsWith key "portal_" = true →
      r.setItem key v = .errPortalWrite ∧
      r.setAttr key v = .attrErrPortalWrite) := by
  refine ⟨?_, ?_, ?_⟩
  · intro h
    have hset : r.setItem key v = .slotAssigned := by simp [Record.setItem, h]
    exact ⟨hset, by simp [Record.setAttr, hset]⟩
  · intro h1 h2
    have hset : r.setItem key v = .errFieldNotFound := by
      simp [Record.setItem, h1, h2]
    exact ⟨hset, by simp [Record.setAttr, hset]⟩
  · intro h1 h2 h3
    have hset : r.setItem key v = .errPortalWrite := by
      simp [Record.setItem, h1, h2, h3]
    exact ⟨hset, by simp [Record.setAttr, hset]⟩

theorem record_set_errors_wit :
    Record.setItem (⟨["a"], [(0 : Nat)], false, []⟩ : Record Nat) "_values" 1
      = .slotAssigned ∧
    Record.setItem (⟨["a"], [(0 : Nat)], false, []⟩ : Record Nat) "b" 1
      = .errFieldNotFound ∧
    Record.setItem (⟨["portal_p", "a"], [(0 : Nat), 1], false, []⟩ : Record Nat)
      "portal_p" 2 = .errPortalWrite := by
  refine ⟨?_, ?_, ?_⟩
  · exact ((record_set_errors (⟨["a"], [(0 : Nat)], false, []⟩ : Record Nat)
      "_values" 1).1 (by decide)).1
  · exact (((record_set_errors (⟨["a"], [(0 : Nat)], false, []⟩ : Record Nat)
      "b" 1).2.1 (by decide) (by decide))).1
  · exact (((record_set_errors (⟨["portal_p", "a"], [(0 : Nat), 1], false, []⟩ :
      Record Nat) "portal_p" 2).2.2 (by decide) (by decide) (by decide))).1

/-- C7 counterexample: `_keys` can be a known field name
(`Record(['_keys'], [0])`), yet setting it takes the `__slots__` branch: the
assignment is a raw slot write, no modification is recorded, so
`modifications()[f] == v` fails. -/
theorem record_set_value_cex :
    Record.setItem (⟨["_keys"], [(0 : Nat)], false, []⟩ : Record Nat) "_keys" 1
      = .slotAssigned ∧
    modsAfterSet (⟨["_keys"], [(0 : Nat)], false, []⟩ : Record Nat) "_keys" 1
      = none ∧
    (none : Option Nat) ≠ some 1 := by
  refine ⟨by decide, by decide, by decide⟩

/-- C7 (amended): for a known, non-portal-prefixed field whose name is not an
internal slot name, `set(f, get(f))` is a no-op (the record, hence `isDirty`
and `modifications()`, is unchanged), and `set(f, v)` with `v` different from
the current value records `modifications()[f] == v` and makes
`get(f) == v`. -/
theorem record_set_known_field {α : Type} [DecidableEq α] (r : Record α)
    (key : String) (cur : α) (hs : key ∉ recordSlots)
    (hp : pyStartsWith key "portal_" = false) (hget : r.getItem key = some cur) :
    r.setItem key cur = .ok r ∧
    ∀ v, v ≠ cur → ∃ r2, r.setItem key v = .ok r2 ∧
      dictGet r2.mods key = some v ∧ r2.getItem key = some v := by
  obtain ⟨hnoop, hupd⟩ := setItem_spec hs hp hget
  refine ⟨hnoop, ?_⟩
  intro v hv
  obtain ⟨r2, hok, _, _, hmods, hget2⟩ := hupd v hv
  exact ⟨r2, hok, by rw [hmods]; exact dictGet_dictSet r.mods key v, hget2⟩

theorem record_set_known_field_wit :
    Record.setItem (⟨["a"], [(0 : Nat)], false, []⟩ : Record Nat) "a" 0
      = .ok ⟨["a"], [0], false, []⟩ ∧
    (∃ r2, Record.setItem (⟨["a"], [(0 : Nat)], false, []⟩ : Record Nat) "a" 1
      = .ok r2 ∧ dictGet r2.mods "a" = some 1 ∧ r2.getItem "a" = some 1) := by
  have h := record_set_known_field (⟨["a"], [(0 : Nat)], false, []⟩ : Record Nat)
    "a" 0 (by decide) (by decide) (by decide)
  exact ⟨h.1, h.2 1 (by decide)⟩

/-- C9 counterexample: with `_values` as a known field name
(`Record(['_values'], [0])`), both sets take the `__slots__` branch: the
record view is never updated through the field path and no pending
modification is recorded, so the record is not left dirty with
`modifications()[f] == orig`. -/
theorem record_revert_cex :
    Record.setItem (⟨["_values"], [(0 : Nat)], false, []⟩ : Record Nat) "_values" 1
      = .slotAssigned ∧
    setTwice (⟨["_values"], [(0 : Nat)], false, []⟩ : Record Nat) "_values" 1 0
      = none := by
  refine ⟨by decide, by decide⟩

/-- C9 (amended): for a known, non-portal-prefixed field whose name is not an
internal slot name, setting `v ≠ orig` and then setting back `orig` leaves the
record dirty, with `modifications()[f] == orig`: reverting does not clear the
pending modification, it records the original value as the pending value. -/
theorem record_revert_keeps_dirty {α : Type} [DecidableEq α] (r : Record α)
    (key : String) (orig v : α) (hs : key ∉ recordSlots)
    (hp : pyStartsWith key "portal_" = false) (hget : r.getItem key = some orig)
    (hv : v ≠ orig) :
    ∃ r1 r2, r.setItem key v = .ok r1 ∧ r1.setItem key orig = .ok r2 ∧
      dictGet r2.mods key = some orig ∧ r2.isDirty = true ∧
      setTwice r key v orig = some r2 := by
  obtain ⟨r1, hok1, _, _, hmods1, hget1⟩ := (setItem_spec hs hp hget).2 v hv
  obtain ⟨r2, hok2, _, _, hmods2, _⟩ :=
    (setItem_spec hs hp hget1).2 orig (Ne.symm hv)
  have hdg : dictGet r2.mods key = some orig := by
    rw [hmods2]
    exact dictGet_dictSet r1.mods key orig
  refine ⟨r1, r2, hok1, hok2, hdg, ?_, ?_⟩
  · have hne := dictGet_some_ne_nil hdg
    simp [Record.isDirty, List.length_pos, hne]
  · simp [setTwice, hok1, hok2]

theorem setItem_ok_lengths {α : Type} [DecidableEq α] {r r2 : Record α}
    {key : String} {v : α} (hok : r.setItem key v = .ok r2)
    (hlen : r.keys.length = r.values.length) :
    r2.keys.length = r2.values.length := by
  by_cases h1 : key ∈ recordSlots
  · simp [Record.setItem, h1] at hok
  · by_cases h2 : key ∈ r.keys
    · by_cases h3 : pyStartsWith key "portal_" = true
      · simp [Record.setItem, h1, h2, h3] at hok
      · simp only [Record.setItem, if_neg h1] at hok
        rw [if_neg (not_not_intro h2), if_neg h3] at hok
        cases hpi : pyListIndex r.keys key with
        | none =>
          simp only [hpi] at hok
          cases hok
        | some i =>
          simp only [hpi] at hok
          cases hgv : r.values.get? i with
          | none =>
            simp only [hgv] at hok
            cases hok
          | some cur =>
            simp only [hgv] at hok
            by_cases hveq : v = cur
            · simp only [if_pos hveq] at hok
              injection hok with h
              subst h
              exact hlen
            · simp only [if_neg hveq] at hok
              injection hok with h
              subst h
              simpa [List.length_set] using hlen
    · simp [Record.setItem, h1, h2] at hok

theorem pop_lengths {α : Type} [DecidableEq α] (r : Record α) (key : String)
    (hlen : r.keys.length = r.values.length) :
    ((r.pop key).2).keys.length = ((r.pop key).2).values.length := by
  cases hpi : pyListIndex r.keys key with
  | none => simp [Record.pop, Record.getItem, hpi, hlen]
  | some i =>
    cases hgv : r.values.get? i with
    | none => simp [Record.pop, Record.getItem, hpi, ← List.get?_eq_getElem?, hgv, hlen]
    | some v =>
      have hik : i < r.keys.length :=
        (List.get?_eq_some.mp (pyListIndex_some_get hpi)).1
      have hiv : i < r.values.length := (List.get?_eq_some.mp hgv).1
      simp only [Record.pop, Record.getItem, hpi, Option.some_bind, hgv]
      simp only [List.length_eraseIdx, hik, hiv, if_pos]
      omega

/-- C8 counterexample: on `Record(['a'], ['x'])`, the assignment
`record['_keys'] = 'xy'` takes the `__slots__` branch and overwrites the
internal `_keys` slot with the string `'xy'`; afterwards
`len(record.keys()) == 2` while `len(record.values()) == 1`, so `set` does
not always preserve the equal-length invariant. -/
theorem record_lengths_cex :
    keysLenAfterSet ⟨["a"], ["x"], false, []⟩ "_keys" "xy" = some 2 ∧
    valuesLenAfterSet ⟨["a"], ["x"], false, []⟩ "_keys" "xy" = some 1 ∧
    (2 : Nat) ≠ 1 := by
  refine ⟨by decide, by decide, by decide⟩

/-- C8 (amended): construction succeeds exactly for key/value lists of equal
length, and any record it returns satisfies the equal-length invariant; every
`set` that takes a field path (returns normally) and every `pop` preserve the
invariant.  An assignment to one of the four internal slot names bypasses the
field path and can break the invariant (see the counterexample). -/
theorem record_lengths {α : Type} [DecidableEq α] (keys : List String)
    (vals : List α) (ip : Bool) (r r2 : Record α) (key : String) (v : α) :
    ((Record.mk? keys vals ip).isSome ↔ keys.length = vals.length) ∧
    (∀ r0, Record.mk? keys vals ip = some r0 →
      r0.keys.length = r0.values.length) ∧
    (r.keys.length = r.values.length → r.setItem key v = .ok r2 →
      r2.keys.length = r2.values.length) ∧
    (r.keys.length = r.values.length →
      ((r.pop key).2).keys.length = ((r.pop key).2).values.length) := by
  refine ⟨?_, ?_, ?_, ?_⟩
  · constructor
    · intro h
      by_cases hl : keys.length = vals.length
      · exact hl
      · simp [Record.mk?, hl] at h
    · intro h
      simp [Record.mk?, h]
  · intro r0 h
    by_cases hl : keys.length = vals.length
    · simp only [Record.mk?, if_pos hl] at h
      cases h
      exact hl
    · simp [Record.mk?, hl] at h
  · intro hlen hok
    exact setItem_ok_lengths hok hlen
  · intro hlen
    exact pop_lengths r key hlen

theorem record_lengths_wit :
    (Record.mk? ["a"] [(0 : Nat)] false).isSome ∧
    (⟨["a"], [1], false, [("a", 1)]⟩ : Record Nat).keys.length
      = (⟨["a"], [1], false, [("a", 1)]⟩ : Record Nat).values.length ∧
    ((⟨["a"], [(0 : Nat)], false, []⟩ : Record Nat).pop "a").2.keys.length
      = ((⟨["a"], [(0 : Nat)], false, []⟩ : Record Nat).pop "a").2.values.length := by
  have h := record_lengths ["a"] [(0 : Nat)] false
    (⟨["a"], [0], false, []⟩ : Record Nat) ⟨["a"], [1], false, [("a", 1)]⟩ "a" 1
  refine ⟨h.1.mpr (by decide), h.2.2.1 (by decide) (by decide), h.2.2.2 (by decide)⟩

theorem record_revert_keeps_dirty_wit :
    ∃ r1 r2, Record.setItem (⟨["a"], [(0 : Nat)], false, []⟩ : Record Nat) "a" 1
      = .ok r1 ∧ r1.setItem "a" 0 = .ok r2 ∧
      dictGet r2.mods "a" = some 0 ∧ r2.isDirty = true ∧
      setTwice (⟨["a"], [(0 : Nat)], false, []⟩ : Record Nat) "a" 1 0 = some r2 :=
  record_revert_keeps_dirty (⟨["a"], [(0 : Nat)], false, []⟩ : Record Nat) "a" 0 1
    (by decide) (by decide) (by decide) (by decide)

/-- C4: mapping a response with one row whose field object is `{id: "1"}`,
with sibling keys `recordId: 10` and `modId: 3` and no portals, yields
exactly one record with `record_id == 10`, `modification_id == 3` and
`get("id") == "1"`: the mapper injects `recordId` and `modId` from the row's
sibling keys as synthetic fields. -/
theorem mapper_injects_meta_fields :
    processFoundsetResponse
        [⟨[("id", FMVal.str "1")], some (.int 10), some (.int 3), [], []⟩]
      = some [⟨["id", "recordId", "modId"],
              [.str "1", .int 10, .int 3], false, []⟩] ∧
    Record.record_id
        ⟨["id", "recordId", "modId"], [.str "1", .int 10, .int 3], false, []⟩
      = some 10 ∧
    Record.modification_id
        ⟨["id", "recordId", "modId"], [.str "1", .int 10, .int 3], false, []⟩
      = some (some 3) ∧
    Record.getItem
        (⟨["id", "recordId", "modId"], [.str "1", .int 10, .int 3], false, []⟩ :
          Record FMVal) "id"
      = some (.str "1") := by
  refine ⟨rfl, rfl, rfl, rfl⟩

/-- C5: mapping a row with `portalData: {"Notes": [{"note": "hi"}]}` yields a
record whose `get("portal_Notes")` is the portal Foundset over exactly one
lazily-built related record with `in_portal=True`; that sole record has
`get("note") == "hi"` and `modification_id == None`; and iterating the portal
Foundset yields exactly the one row (a LazyCollection of length 1). -/
theorem mapper_builds_portal_foundset :
    processFoundsetResponse [⟨[], none, none, [],
        [("Notes", [[("note", FMVal.str "hi")]])]⟩]
      = some [⟨["recordId", "modId", "portal_Notes"],
              [.null, .null, .fset [(["note"], [.str "hi"], true)] []],
              false, []⟩] ∧
    Record.getItem
        (⟨["recordId", "modId", "portal_Notes"],
          [.null, .null, .fset [(["note"], [.str "hi"], true)] []],
          false, []⟩ : Record FMVal) "portal_Notes"
      = some (.fset [(["note"], [.str "hi"], true)] []) ∧
    recOfPortalRow (["note"], [.str "hi"], true)
      = some ⟨["note"], [.str "hi"], true, []⟩ ∧
    Record.getItem (⟨["note"], [.str "hi"], true, []⟩ : Record FMVal) "note"
      = some (.str "hi") ∧
    Record.modification_id ⟨["note"], [.str "hi"], true, []⟩ = some none ∧
    (fsIterate (fsInit [(["note"], [FMVal.str "hi"], true)])).1
      = [(["note"], [FMVal.str "hi"], true)] ∧
    (fsIterate (fsInit [(["note"], [FMVal.str "hi"], true)])).1.length = 1 := by
  refine ⟨rfl, rfl, rfl, rfl, rfl, rfl, rfl⟩

end Fmrest
